import Mathlib

/-!
Verification of the zwerte lottery-simulation engine.

The embedded program is the simulation worker (`simulation.worker.js`-style
module: `generateUniqueNumbers`, `calculateChecksum`, `heavyComputation`,
`runSimulation`, message protocol) together with the fallback in-component
path `runFallbackSimulation` of the SimulationEngine component.

Modelling conventions:
* `Math.random()` is modelled by an arbitrary stream `rng : ℕ → ℕ`; the
  JavaScript expression `Math.floor(Math.random() * (max - min + 1)) + min`
  becomes `rng k % (max - min + 1) + min` where `k` is the index of the
  next unconsumed stream element (one index per `Math.random()` call).
* JavaScript number arithmetic is modelled by exact rationals `ℚ`
  (`Math.round` as floor of `x + 1/2`, which is how JS rounds, ties toward
  positive infinity).  `NaN` results (division by zero, `undefined + 1`)
  are modelled by `none` of an `Option` type, and JS `undefined` array
  reads by `none` as well.
* The unbounded `while` loops that sample until enough unique values are
  collected are modelled with an explicit fuel parameter; a result of
  `none` means the loop has not finished within `fuel` samples, and
  `(∀ fuel, … = none)` expresses nontermination.
* `Date.now()` and `performance.now()` are ambient clocks with no effect
  on control flow; both are modelled as `0`.
-/

namespace Zwerte

/-- JavaScript `Math.round`: round half toward positive infinity. -/
def jsRound (x : ℚ) : ℤ := ⌊x + 1 / 2⌋

/-- One uniform sample in `[lo, hi]`:
`Math.floor(Math.random() * (hi - lo + 1)) + lo`. -/
def randInt (rng : ℕ → ℕ) (k lo hi : ℕ) : ℕ :=
  rng k % (hi - lo + 1) + lo

/-- A `{min, max, count}` range specification as sent in the start
message.  (The worker reads only `min`/`max` of the bonus range.) -/
structure RangeSpec where
  min : ℕ
  max : ℕ
  count : ℕ
deriving DecidableEq, Repr

/-- One simulated draw, as pushed into the worker's `results` array.
`timestamp` is `Date.now()`, an ambient clock modelled as `0`. -/
structure Draw where
  id : ℕ
  mainNumbers : List ℕ
  bonusNumber : ℕ
  timestamp : ℕ
  checksum : ℕ
deriving DecidableEq, Repr

/-- One entry of `top3Combinations`.  `bonusNumber` is an `Option`
because the JS expression `undefined + 1` yields `NaN` (modelled
`none`); `frequencyScore` is `none` exactly when the JS score is `NaN`
(division by `iterations = 0`). -/
structure RankedCombination where
  rank : String
  mainNumbers : List ℕ
  bonusNumber : Option ℕ
  frequencyScore : Option ℤ
deriving DecidableEq, Repr

/-- The statistics object of the COMPLETE payload (also produced by the
fallback path, where `optimizedCombinations` is absent, i.e. `none`).
`mostFrequentBonus` is `sortedBonus[0]`, which is `undefined` (`none`)
when no bonus entry exists; `averageSum` is `none` exactly when the JS
value is `NaN` (`iterations = 0`). -/
structure SimulationStatistics where
  totalSimulations : ℤ
  processingTimeMs : ℕ
  mostFrequentMain : List ℕ
  mostFrequentBonus : Option ℕ
  averageSum : Option ℤ
  optimizedCombinations : Option (List RankedCombination)
deriving DecidableEq, Repr

/-- A message posted by the worker via `self.postMessage`. -/
inductive WorkerMessage where
  | progress (value : ℚ)
  | complete (results : List Draw) (statistics : SimulationStatistics)
  | error (message : String)
deriving DecidableEq, Repr

/-- The payload of the SIMULATE start message. -/
structure SimConfig where
  iterations : ℤ
  mainNumberRange : RangeSpec
  bonusNumberRange : RangeSpec
deriving DecidableEq, Repr

/-- The `while (numbers.size < count)` sampling loop of
`generateUniqueNumbers`.  The JS `Set` is modelled by its
insertion-ordered element list: `add` appends the value when absent and
is a no-op when present, and `size` is the list length.  `fuel` bounds
the number of loop iterations; `none` means the loop has not finished
within `fuel` samples. -/
def sampleLoop (rng : ℕ → ℕ) (count lo hi : ℕ) :
    ℕ → List ℕ → ℕ → Option (List ℕ × ℕ)
  | 0, numbers, k => if numbers.length < count then none else some (numbers, k)
  | fuel + 1, numbers, k =>
    if numbers.length < count then
      let v := randInt rng k lo hi
      sampleLoop rng count lo hi fuel
        (if v ∈ numbers then numbers else numbers ++ [v]) (k + 1)
    else some (numbers, k)

/-- `generateUniqueNumbers(count, min, max)`: sample until `count` unique
values are collected, then return them sorted ascending
(`Array.from(numbers).sort((a, b) => a - b)`).  Also returns the new
random-stream index. -/
def generateUniqueNumbers (rng : ℕ → ℕ) (fuel count lo hi k : ℕ) :
    Option (List ℕ × ℕ) :=
  (sampleLoop rng count lo hi fuel [] k).map fun p =>
    (List.insertionSort (· ≤ ·) p.1, p.2)

/-- `calculateChecksum(main, bonus)`:
`main.reduce((acc, n) => acc + n, 0) * bonus`. -/
def calculateChecksum (main : List ℕ) (bonus : ℕ) : ℕ :=
  (main.foldl (· + ·) 0) * bonus

/-- `heavyComputation()` samples one random value in `[1000, 10999]`,
trial-divides it into a local `factors` array and returns nothing; the
array is discarded, so its only effect on the rest of the program is the
consumption of one element of the random stream.  We model exactly that
effect: the stream index advances by one. -/
def heavyComputationK (k : ℕ) : ℕ := k + 1

/-- `map.set(key, (map.get(key) || 0) + 1)` on an insertion-ordered
`Map`, modelled as an association list: bump the existing entry, else
append a fresh `(key, 1)` entry at the end. -/
def mapInc (m : List (ℕ × ℕ)) (key : ℕ) : List (ℕ × ℕ) :=
  if (m.find? fun p => p.1 == key).isSome then
    m.map fun p => if p.1 == key then (p.1, p.2 + 1) else p
  else m ++ [(key, 1)]

/-- `map.get(key) || 0` on the association list (a missing key reads as
`undefined`, which `|| 0` turns into `0`; stored counts are ≥ 1, so the
falsiness of `0` never fires on a present key). -/
def getCount (m : List (ℕ × ℕ)) (key : ℕ) : ℕ :=
  ((m.find? fun p => p.1 == key).map Prod.snd).getD 0

/-- Sum of the stored counts of a frequency table. -/
def sumValues (m : List (ℕ × ℕ)) : ℕ :=
  (m.map Prod.snd).sum

/-- JavaScript `x || y` on an optional number `x` (absent or `NaN` reads
fall through, and so does the falsy number `0`). -/
def jsOrN (x : Option ℕ) (y : Option ℕ) : Option ℕ :=
  match x with
  | some v => if v = 0 then y else some v
  | none => y

/-- `Math.ceil(n / 10)` for a nonnegative `n`. -/
def ceil10 (n : ℕ) : ℕ := (n + 9) / 10

/-- `arr.slice(-n)`: the last `n` elements. -/
def lastN (n : ℕ) (l : List Draw) : List Draw :=
  l.drop (l.length - n)

/-- The mutable loop state of `runSimulation`: next random-stream index,
the two frequency `Map`s (insertion-ordered association lists),
`totalSum`, the `results` array, and the `progress` payloads posted so
far (in posting order). -/
structure SimState where
  k : ℕ
  mainFrequency : List (ℕ × ℕ)
  bonusFrequency : List (ℕ × ℕ)
  totalSum : ℕ
  results : List Draw
  progressLog : List ℚ
deriving DecidableEq, Repr

/-- State at the top of the `try` block. -/
def initState : SimState :=
  { k := 0, mainFrequency := [], bonusFrequency := [], totalSum := 0,
    results := [], progressLog := [] }

/-- One iteration of the `for (let i = 0; i < iterations; i++)` body:
`heavyComputation()`, `generateUniqueNumbers`, one bonus sample,
frequency tracking, `totalSum` update, result push, and the
every-`Math.ceil(iterations / 10)` progress post with payload
`((i + 1) / iterations) * 100`. -/
def simStep (cfg : SimConfig) (rng : ℕ → ℕ) (fuel : ℕ) (i : ℕ)
    (st : SimState) : Option SimState :=
  let k0 := heavyComputationK st.k
  match generateUniqueNumbers rng fuel cfg.mainNumberRange.count
      cfg.mainNumberRange.min cfg.mainNumberRange.max k0 with
  | none => none
  | some (mainNumbers, k1) =>
    let bonusNumber := randInt rng k1 cfg.bonusNumberRange.min cfg.bonusNumberRange.max
    let draw : Draw :=
      { id := i + 1, mainNumbers := mainNumbers, bonusNumber := bonusNumber,
        timestamp := 0, checksum := calculateChecksum mainNumbers bonusNumber }
    some
      { k := k1 + 1
        mainFrequency := mainNumbers.foldl mapInc st.mainFrequency
        bonusFrequency := mapInc st.bonusFrequency bonusNumber
        totalSum := st.totalSum + mainNumbers.foldl (· + ·) 0
        results := st.results ++ [draw]
        progressLog :=
          if (i + 1) % ceil10 cfg.iterations.toNat = 0 then
            st.progressLog ++ [((i : ℚ) + 1) / (cfg.iterations : ℚ) * 100]
          else st.progressLog }

/-- The trial loop: run `n` more iterations starting at index `i`. -/
def runLoop (cfg : SimConfig) (rng : ℕ → ℕ) (fuel : ℕ) :
    ℕ → ℕ → SimState → Option SimState
  | 0, _, st => some st
  | n + 1, i, st =>
    match simStep cfg rng fuel i st with
    | none => none
    | some st' => runLoop cfg rng fuel n (i + 1) st'

/-- The final loop state of a run (`for (let i = 0; i < iterations; i++)`
runs `iterations.toNat` times). -/
def runState (cfg : SimConfig) (rng : ℕ → ℕ) (fuel : ℕ) : Option SimState :=
  runLoop cfg rng fuel cfg.iterations.toNat 0 initState

/-- The progress payloads posted by trials `i, i+1, …, i+n-1`: trial
index `j` posts `((j + 1) / iterations) * 100` exactly when
`(j + 1) % Math.ceil(iterations / 10) === 0`. -/
def progressPayloads (cfg : SimConfig) : ℕ → ℕ → List ℚ
  | 0, _ => []
  | n + 1, i =>
    (if (i + 1) % ceil10 cfg.iterations.toNat = 0 then
      [((i : ℚ) + 1) / (cfg.iterations : ℚ) * 100]
    else []) ++ progressPayloads cfg n (i + 1)

/-- The comparator `(a, b) => b[1] - a[1]` as an ordering relation:
`a` may precede `b` iff `a`'s count is at least `b`'s. -/
def byCountDesc (a b : ℕ × ℕ) : Prop := b.2 ≤ a.2

instance : DecidableRel byCountDesc := fun a b =>
  inferInstanceAs (Decidable (b.2 ≤ a.2))

instance : IsTotal (ℕ × ℕ) byCountDesc := ⟨fun a b => le_total b.2 a.2⟩

instance : IsTrans (ℕ × ℕ) byCountDesc :=
  ⟨fun _ _ _ hab hbc => le_trans hbc hab⟩

/-- The stable descending-by-count sort
`Array.from(map.entries()).sort((a, b) => b[1] - a[1])`
(JS `Array.prototype.sort` is stable; so is insertion sort). -/
def sortByCountDesc (m : List (ℕ × ℕ)) : List (ℕ × ℕ) :=
  List.insertionSort byCountDesc m

/-- A score `Math.round(x)` that is `NaN` (`none`) exactly when
`iterations = 0` made `x` a division by zero. -/
def scoreOpt (iterations : ℤ) (x : ℚ) : Option ℤ :=
  if iterations = 0 then none else some (jsRound x)

/-- The statistics block at the end of the `try` body (source lines
89–137).  Note that `const topMain = sortedMain.sort((a, b) => a - b)`
*mutates* `sortedMain` in place, so every later read of `sortedMain`
(the score numerators and the `mostFrequentMain` field) sees the
ascending list `topMain`. -/
def mkStatistics (cfg : SimConfig) (st : SimState) : SimulationStatistics :=
  let sortedMain := ((sortByCountDesc st.mainFrequency).take 6).map Prod.fst
  let sortedBonus := (sortByCountDesc st.bonusFrequency).map Prod.fst
  let topMain := List.insertionSort (· ≤ ·) sortedMain
  let f0 := getCount st.mainFrequency (topMain.headD 0)
  let it : ℚ := (cfg.iterations : ℚ)
  { totalSimulations := cfg.iterations
    processingTimeMs := 0
    mostFrequentMain := topMain
    mostFrequentBonus := sortedBonus[0]?
    averageSum :=
      if cfg.iterations = 0 then none
      else some (jsRound ((st.totalSum : ℚ) / it))
    optimizedCombinations := some
      [ { rank := "Primary Result", mainNumbers := topMain
          bonusNumber := jsOrN sortedBonus[0]? (some 1)
          frequencyScore := scoreOpt cfg.iterations ((f0 : ℚ) / it * 100) }
      , { rank := "Secondary Result", mainNumbers := topMain
          bonusNumber := jsOrN sortedBonus[1]?
            (match sortedBonus[0]? with
             | some t => some (if t = 12 then 1 else t + 1)
             | none => none)
          frequencyScore := scoreOpt cfg.iterations ((f0 : ℚ) / it * 100 * (85 / 100)) }
      , { rank := "Tertiary Result", mainNumbers := topMain
          bonusNumber := jsOrN sortedBonus[2]?
            (match sortedBonus[0]? with
             | some t => some (if t = 11 then 1 else t + 2)
             | none => none)
          frequencyScore := scoreOpt cfg.iterations ((f0 : ℚ) / it * 100 * (70 / 100)) } ] }

/-- `runSimulation`: the ordered list of messages the worker posts for a
start message, `none` when the sampling loop exhausts its fuel (i.e. the
worker never finishes).  Within the typed model nothing in the `try`
body throws, so the `catch` branch (a single terminal ERROR message) is
unreachable and every finished run posts its PROGRESS messages followed
by one COMPLETE carrying `results.slice(-50)` and the statistics. -/
def runSimulation (cfg : SimConfig) (rng : ℕ → ℕ) (fuel : ℕ) :
    Option (List WorkerMessage) :=
  (runState cfg rng fuel).map fun st =>
    st.progressLog.map WorkerMessage.progress
      ++ [WorkerMessage.complete (lastN 50 st.results) (mkStatistics cfg st)]

/-- The fallback path's `while (mainNumbers.length < 6)` loop: push a
sample of `Math.floor(Math.random() * 31) + 1` unless already present.
Fuel-bounded like `sampleLoop`. -/
def fallbackDrawLoop (rng : ℕ → ℕ) :
    ℕ → List ℕ → ℕ → Option (List ℕ × ℕ)
  | 0, acc, k => if acc.length < 6 then none else some (acc, k)
  | fuel + 1, acc, k =>
    if acc.length < 6 then
      let num := rng k % 31 + 1
      fallbackDrawLoop rng fuel (if num ∈ acc then acc else acc ++ [num]) (k + 1)
    else some (acc, k)

/-- The fallback path's trial loop (the `processChunk` chunking by 10
with `setTimeout` only schedules work and updates the progress bar; the
draws produced are those of a single sequential loop, which is what we
model). -/
def fallbackTrials (rng : ℕ → ℕ) (fuel : ℕ) :
    ℕ → ℕ → List Draw → ℕ → Option (List Draw × ℕ)
  | 0, _, acc, k => some (acc, k)
  | n + 1, processed, acc, k =>
    match fallbackDrawLoop rng fuel [] k with
    | none => none
    | some (nums, k1) =>
      let mainNumbers := List.insertionSort (· ≤ ·) nums
      let bonusNumber := rng k1 % 12 + 1
      let draw : Draw :=
        { id := processed + 1, mainNumbers := mainNumbers,
          bonusNumber := bonusNumber, timestamp := 0,
          checksum := (mainNumbers.foldl (· + ·) 0) * bonusNumber }
      fallbackTrials rng fuel n (processed + 1) (acc ++ [draw]) (k1 + 1)

/-- `runFallbackSimulation` of the SimulationEngine component: run the
trials, then build the statistics literal of source lines 151–159 —
`mostFrequentMain` and `mostFrequentBonus` are hardcoded placeholders,
`optimizedCombinations` is absent (`none`), and only `averageSum` is
computed from the run's own draws.  Returns the statistics and the
`results.slice(-50)` kept for display. -/
def runFallbackSimulation (iterations : ℕ) (rng : ℕ → ℕ) (fuel : ℕ) :
    Option (SimulationStatistics × List Draw) :=
  match fallbackTrials rng fuel iterations 0 [] 0 with
  | none => none
  | some (results, _) =>
    some
      ({ totalSimulations := (iterations : ℤ)
         processingTimeMs := 0
         mostFrequentMain := [3, 7, 12, 18, 24, 29]
         mostFrequentBonus := some 6
         averageSum :=
           if iterations = 0 then none
           else some (jsRound
             (((results.foldl (fun acc r => acc + r.mainNumbers.foldl (· + ·) 0) 0 : ℕ) : ℚ)
               / (iterations : ℚ)))
         optimizedCombinations := none }, lastN 50 results)

/-! ### Concrete instances used to exercise the model

`rngId` is the identity random stream; the other streams are tabulated
so that a one- or three-trial run produces a chosen frequency profile. -/

/-- The identity random stream. -/
def rngId : ℕ → ℕ := fun k => k

/-- The app's start payload (`mainNumberRange: {min: 1, max: 31, count: 6}`,
`bonusNumberRange: {min: 1, max: 12}`) with one iteration. -/
def cfgOneTrial : SimConfig :=
  { iterations := 1
    mainNumberRange := { min := 1, max := 31, count := 6 }
    bonusNumberRange := { min := 1, max := 12, count := 1 } }

/-- The spec's impossible scenario: six unique values requested from
`[1, 5]`. -/
def cfgImpossible : SimConfig :=
  { iterations := 1
    mainNumberRange := { min := 1, max := 5, count := 6 }
    bonusNumberRange := { min := 1, max := 12, count := 1 } }

/-- The spec's `iterations = 0` scenario. -/
def cfgZeroIter : SimConfig :=
  { iterations := 0
    mainNumberRange := { min := 1, max := 31, count := 6 }
    bonusNumberRange := { min := 1, max := 12, count := 1 } }

/-- Three trials of two-of-ten draws, used to separate the top
frequency from the frequency of the smallest top number. -/
def cfgScoreDemo : SimConfig :=
  { iterations := 3
    mainNumberRange := { min := 1, max := 10, count := 2 }
    bonusNumberRange := { min := 1, max := 12, count := 1 } }

/-- Stream for `cfgScoreDemo`: draws `{9, 10}`, `{1, 9}`, `{2, 9}` with
bonus `1` each time, so `9` is the most frequent main number (3 hits). -/
def rngScoreDemo : ℕ → ℕ :=
  fun k => [0, 8, 9, 0, 0, 0, 8, 0, 0, 1, 8, 0].getD k 0

/-- Stream whose single bonus sample yields `12` (the bonus-range
maximum) while the main draw is `{2, 3, 4, 5, 6, 7}`. -/
def rngTopBonus : ℕ → ℕ := fun k => if k = 7 then 11 else k

/-- The final loop state of `runState cfgOneTrial rngId 10`: one trial
drawing `[2, 3, 4, 5, 6, 7]` with bonus `8`.  The progress payload is
kept in the exact arithmetic shape the step function produces (it
equals `100`), so that the state equation holds by `rfl`. -/
def stateOneTrial : SimState :=
  { k := 8
    mainFrequency := [(2, 1), (3, 1), (4, 1), (5, 1), (6, 1), (7, 1)]
    bonusFrequency := [(8, 1)]
    totalSum := 27
    results := [{ id := 1, mainNumbers := [2, 3, 4, 5, 6, 7], bonusNumber := 8,
                  timestamp := 0, checksum := 216 }]
    progressLog := [(((0 : ℕ) : ℚ) + 1) / (cfgOneTrial.iterations : ℚ) * 100] }

/-- The final loop state of `runState cfgScoreDemo rngScoreDemo 10`:
draws `[9, 10]`, `[1, 9]`, `[2, 9]`, bonus `1` each time.  `9` occurs in
all three trials, every other number once. -/
def stateScoreDemo : SimState :=
  { k := 12
    mainFrequency := [(9, 3), (10, 1), (1, 1), (2, 1)]
    bonusFrequency := [(1, 3)]
    totalSum := 40
    results :=
      [{ id := 1, mainNumbers := [9, 10], bonusNumber := 1, timestamp := 0,
         checksum := 19 },
       { id := 2, mainNumbers := [1, 9], bonusNumber := 1, timestamp := 0,
         checksum := 10 },
       { id := 3, mainNumbers := [2, 9], bonusNumber := 1, timestamp := 0,
         checksum := 11 }]
    progressLog :=
      [(((0 : ℕ) : ℚ) + 1) / (cfgScoreDemo.iterations : ℚ) * 100,
       (((1 : ℕ) : ℚ) + 1) / (cfgScoreDemo.iterations : ℚ) * 100,
       (((2 : ℕ) : ℚ) + 1) / (cfgScoreDemo.iterations : ℚ) * 100] }

/-- The final loop state of `runState cfgOneTrial rngTopBonus 10`: one
trial drawing `[2, 3, 4, 5, 6, 7]` with bonus `12`. -/
def stateTopBonus : SimState :=
  { k := 8
    mainFrequency := [(2, 1), (3, 1), (4, 1), (5, 1), (6, 1), (7, 1)]
    bonusFrequency := [(12, 1)]
    totalSum := 27
    results := [{ id := 1, mainNumbers := [2, 3, 4, 5, 6, 7], bonusNumber := 12,
                  timestamp := 0, checksum := 324 }]
    progressLog := [(((0 : ℕ) : ℚ) + 1) / (cfgOneTrial.iterations : ℚ) * 100] }

/-- The single draw of `runFallbackSimulation 1 rngId 10`. -/
def fallbackDrawOneTrial : Draw :=
  { id := 1, mainNumbers := [1, 2, 3, 4, 5, 6], bonusNumber := 7,
    timestamp := 0, checksum := 147 }

/-- The statistics of `runFallbackSimulation 1 rngId 10`: the hardcoded
placeholder frequencies, no `optimizedCombinations`, and only
`averageSum` (21, the draw's sum) computed from the run. -/
def fallbackStatsOneTrial : SimulationStatistics :=
  { totalSimulations := (1 : ℕ)
    processingTimeMs := 0
    mostFrequentMain := [3, 7, 12, 18, 24, 29]
    mostFrequentBonus := some 6
    averageSum := some (jsRound (((21 : ℕ) : ℚ) / ((1 : ℕ) : ℚ)))
    optimizedCombinations := none }

/-! ### Basic facts about the sampling primitives -/

theorem randInt_mem {rng : ℕ → ℕ} {k lo hi : ℕ} (h : lo ≤ hi) :
    randInt rng k lo hi ∈ Finset.Icc lo hi := by
  have hmod : rng k % (hi - lo + 1) < hi - lo + 1 := Nat.mod_lt _ (by omega)
  simp only [randInt, Finset.mem_Icc]
  omega

/-- When the requested count exceeds the range size, the sampling loop
cannot finish within any fuel budget: the collected values are distinct
and stay inside `Icc lo hi`, whose cardinality is below `count`. -/
theorem sampleLoop_eq_none {rng : ℕ → ℕ} {count lo hi : ℕ}
    (h : lo ≤ hi) (hc : hi - lo + 1 < count) :
    ∀ fuel (s : List ℕ) (k : ℕ), s.Nodup → (∀ x ∈ s, x ∈ Finset.Icc lo hi) →
      sampleLoop rng count lo hi fuel s k = none := by
  have hlen : ∀ s : List ℕ, s.Nodup → (∀ x ∈ s, x ∈ Finset.Icc lo hi) →
      s.length < count := by
    intro s hnd hsub
    have h1 : s.toFinset.card = s.length := List.toFinset_card_of_nodup hnd
    have h2 : s.toFinset ⊆ Finset.Icc lo hi :=
      fun x hx => hsub x (List.mem_toFinset.mp hx)
    have := Finset.card_le_card h2
    rw [Nat.card_Icc] at this
    omega
  intro fuel
  induction fuel with
  | zero =>
    intro s k hnd hsub
    simp [sampleLoop, hlen s hnd hsub]
  | succ n ih =>
    intro s k hnd hsub
    simp only [sampleLoop, if_pos (hlen s hnd hsub)]
    by_cases hv : randInt rng k lo hi ∈ s
    · rw [if_pos hv]
      exact ih s (k + 1) hnd hsub
    · rw [if_neg hv]
      refine ih _ (k + 1) ?_ ?_
      · simp [List.nodup_append, hnd, hv]
      · intro x hx
        rcases List.mem_append.mp hx with hxs | hxv
        · exact hsub x hxs
        · rw [List.mem_singleton] at hxv
          rw [hxv]
          exact randInt_mem h

theorem sampleLoop_length {rng : ℕ → ℕ} {count lo hi : ℕ} :
    ∀ fuel (s : List ℕ) (k : ℕ) (s' : List ℕ) (k' : ℕ),
      s.length ≤ count → sampleLoop rng count lo hi fuel s k = some (s', k') →
      s'.length = count := by
  intro fuel
  induction fuel with
  | zero =>
    intro s k s' k' hle h
    by_cases hlen : s.length < count
    · simp [sampleLoop, hlen] at h
    · simp [sampleLoop, hlen] at h
      obtain ⟨rfl, rfl⟩ := h
      omega
  | succ n ih =>
    intro s k s' k' hle h
    by_cases hlen : s.length < count
    · simp only [sampleLoop, if_pos hlen] at h
      by_cases hv : randInt rng k lo hi ∈ s
      · rw [if_pos hv] at h
        exact ih _ _ _ _ hle h
      · rw [if_neg hv] at h
        refine ih _ _ _ _ ?_ h
        simp only [List.length_append, List.length_singleton]
        omega
    · simp only [sampleLoop, if_neg hlen] at h
      obtain ⟨rfl, rfl⟩ := h
      omega

theorem sampleLoop_mem_Icc {rng : ℕ → ℕ} {count lo hi : ℕ} (h : lo ≤ hi) :
    ∀ fuel (s : List ℕ) (k : ℕ) (s' : List ℕ) (k' : ℕ),
      (∀ x ∈ s, x ∈ Finset.Icc lo hi) →
      sampleLoop rng count lo hi fuel s k = some (s', k') →
      ∀ x ∈ s', x ∈ Finset.Icc lo hi := by
  intro fuel
  induction fuel with
  | zero =>
    intro s k s' k' hs hsome
    by_cases hlen : s.length < count
    · simp [sampleLoop, hlen] at hsome
    · simp [sampleLoop, hlen] at hsome
      obtain ⟨rfl, rfl⟩ := hsome
      exact hs
  | succ n ih =>
    intro s k s' k' hs hsome
    by_cases hlen : s.length < count
    · simp only [sampleLoop, if_pos hlen] at hsome
      by_cases hv : randInt rng k lo hi ∈ s
      · rw [if_pos hv] at hsome
        exact ih _ _ _ _ hs hsome
      · rw [if_neg hv] at hsome
        refine ih _ _ _ _ ?_ hsome
        intro x hx
        rcases List.mem_append.mp hx with hxs | hxv
        · exact hs x hxs
        · rw [List.mem_singleton] at hxv
          rw [hxv]
          exact randInt_mem h
    · simp only [sampleLoop, if_neg hlen] at hsome
      obtain ⟨rfl, rfl⟩ := hsome
      exact hs

theorem sampleLoop_nodup {rng : ℕ → ℕ} {count lo hi : ℕ} :
    ∀ fuel (s : List ℕ) (k : ℕ) (s' : List ℕ) (k' : ℕ),
      s.Nodup → sampleLoop rng count lo hi fuel s k = some (s', k') →
      s'.Nodup := by
  intro fuel
  induction fuel with
  | zero =>
    intro s k s' k' hs hsome
    by_cases hlen : s.length < count
    · simp [sampleLoop, hlen] at hsome
    · simp [sampleLoop, hlen] at hsome
      obtain ⟨rfl, rfl⟩ := hsome
      exact hs
  | succ n ih =>
    intro s k s' k' hs hsome
    by_cases hlen : s.length < count
    · simp only [sampleLoop, if_pos hlen] at hsome
      by_cases hv : randInt rng k lo hi ∈ s
      · rw [if_pos hv] at hsome
        exact ih _ _ _ _ hs hsome
      · rw [if_neg hv] at hsome
        refine ih _ _ _ _ ?_ hsome
        simp [List.nodup_append, hs, hv]
    · simp only [sampleLoop, if_neg hlen] at hsome
      obtain ⟨rfl, rfl⟩ := hsome
      exact hs

/-- A successful `generateUniqueNumbers` returns a strictly ascending
list of exactly `count` values, all inside the range when the range is
nonempty. -/
theorem generateUniqueNumbers_some {rng : ℕ → ℕ} {fuel count lo hi k : ℕ}
    {l : List ℕ} {k' : ℕ}
    (h : generateUniqueNumbers rng fuel count lo hi k = some (l, k')) :
    l.Sorted (· < ·) ∧ l.length = count ∧
      (lo ≤ hi → ∀ x ∈ l, lo ≤ x ∧ x ≤ hi) := by
  unfold generateUniqueNumbers at h
  rw [Option.map_eq_some'] at h
  obtain ⟨⟨s, k2⟩, hs, hpair⟩ := h
  rw [Prod.ext_iff] at hpair
  obtain ⟨hl, hk⟩ := hpair
  subst hl
  have hperm : List.Perm (List.insertionSort (· ≤ ·) s) s :=
    List.perm_insertionSort _ s
  have hnd : s.Nodup := sampleLoop_nodup fuel [] k s k2 List.nodup_nil hs
  refine ⟨?_, ?_, ?_⟩
  · exact (List.sorted_insertionSort (· ≤ ·) s).lt_of_le (hperm.nodup_iff.mpr hnd)
  · rw [List.length_insertionSort]
    exact sampleLoop_length fuel [] k s k2 (by simp) hs
  · intro hr x hx
    have hmem := sampleLoop_mem_Icc hr fuel [] k s k2 (by simp) hs x
      (hperm.subset hx)
    rw [Finset.mem_Icc] at hmem
    exact hmem

/-! ### Facts about the frequency tables (insertion-ordered assoc lists) -/

/-- The keys of a frequency table, in insertion order. -/
def keys (m : List (ℕ × ℕ)) : List ℕ := m.map Prod.fst

theorem find?_isSome_iff (m : List (ℕ × ℕ)) (key : ℕ) :
    (m.find? fun p => p.1 == key).isSome ↔ key ∈ keys m := by
  rw [List.find?_isSome]
  simp [keys, List.mem_map]

theorem mapInc_of_mem {m : List (ℕ × ℕ)} {key : ℕ} (h : key ∈ keys m) :
    mapInc m key = m.map fun p => if p.1 == key then (p.1, p.2 + 1) else p := by
  unfold mapInc
  rw [if_pos ((find?_isSome_iff m key).mpr h)]

theorem mapInc_of_not_mem {m : List (ℕ × ℕ)} {key : ℕ} (h : key ∉ keys m) :
    mapInc m key = m ++ [(key, 1)] := by
  unfold mapInc
  rw [if_neg (fun hs => h ((find?_isSome_iff m key).mp hs))]

theorem keys_mapInc (m : List (ℕ × ℕ)) (key : ℕ) :
    keys (mapInc m key) = if key ∈ keys m then keys m else keys m ++ [key] := by
  by_cases h : key ∈ keys m
  · rw [mapInc_of_mem h, if_pos h]
    simp only [keys, List.map_map]
    apply List.map_congr_left
    intro p _
    by_cases hp : p.1 = key <;> simp [hp]
  · rw [mapInc_of_not_mem h, if_neg h]
    simp [keys]

theorem keys_mapInc_nodup {m : List (ℕ × ℕ)} {key : ℕ}
    (h : (keys m).Nodup) : (keys (mapInc m key)).Nodup := by
  rw [keys_mapInc]
  by_cases hk : key ∈ keys m
  · rwa [if_pos hk]
  · rw [if_neg hk]
    simp [List.nodup_append, h, hk]

theorem keys_subset_mapInc (m : List (ℕ × ℕ)) (key : ℕ) :
    keys m ⊆ keys (mapInc m key) := by
  rw [keys_mapInc]
  by_cases hk : key ∈ keys m
  · rw [if_pos hk]
    exact fun x hx => hx
  · rw [if_neg hk]
    exact List.subset_append_left _ _

theorem mem_keys_mapInc (m : List (ℕ × ℕ)) (key : ℕ) :
    key ∈ keys (mapInc m key) := by
  rw [keys_mapInc]
  by_cases hk : key ∈ keys m
  · rwa [if_pos hk]
  · rw [if_neg hk]
    simp

theorem map_bump_of_not_mem {key : ℕ} :
    ∀ {m : List (ℕ × ℕ)}, key ∉ keys m →
      (m.map fun p => if p.1 == key then (p.1, p.2 + 1) else p) = m := by
  intro m
  induction m with
  | nil => intro _; rfl
  | cons a t ih =>
    intro h
    simp only [keys, List.map_cons, List.mem_cons, not_or] at h
    obtain ⟨ha, ht⟩ := h
    have hne : ¬((a.1 == key) = true) := by
      simp only [beq_iff_eq]
      exact fun h' => ha h'.symm
    rw [List.map_cons, if_neg hne, ih ht]

theorem sumValues_map_bump {key : ℕ} :
    ∀ {m : List (ℕ × ℕ)}, (keys m).Nodup → key ∈ keys m →
      sumValues (m.map fun p => if p.1 == key then (p.1, p.2 + 1) else p)
        = sumValues m + 1 := by
  intro m
  induction m with
  | nil => intro _ hk; simp [keys] at hk
  | cons a t ih =>
    intro hnd hk
    simp only [keys, List.map_cons, List.nodup_cons] at hnd
    obtain ⟨hna, hnt⟩ := hnd
    simp only [List.map_cons]
    by_cases hak : a.1 = key
    · have htk : key ∉ keys t := hak ▸ hna
      rw [if_pos (by simp [hak]), map_bump_of_not_mem htk]
      simp only [sumValues, List.map_cons, List.sum_cons]
      omega
    · have hkt : key ∈ keys t := by
        simp only [keys, List.map_cons, List.mem_cons] at hk
        rcases hk with h1 | h2
        · exact absurd h1.symm hak
        · exact h2
      rw [if_neg (by simp [hak])]
      have hih := ih hnt hkt
      simp only [sumValues, List.map_cons, List.sum_cons] at hih ⊢
      omega

theorem sumValues_mapInc {m : List (ℕ × ℕ)} (key : ℕ)
    (h : (keys m).Nodup) : sumValues (mapInc m key) = sumValues m + 1 := by
  by_cases hk : key ∈ keys m
  · rw [mapInc_of_mem hk]
    exact sumValues_map_bump h hk
  · rw [mapInc_of_not_mem hk]
    simp [sumValues]

theorem keys_foldl_nodup {l : List ℕ} :
    ∀ {m : List (ℕ × ℕ)}, (keys m).Nodup → (keys (l.foldl mapInc m)).Nodup := by
  induction l with
  | nil => intro m h; exact h
  | cons a t ih =>
    intro m h
    exact ih (keys_mapInc_nodup h)

theorem sumValues_foldl {l : List ℕ} :
    ∀ {m : List (ℕ × ℕ)}, (keys m).Nodup →
      sumValues (l.foldl mapInc m) = sumValues m + l.length := by
  induction l with
  | nil => intro m _; simp
  | cons a t ih =>
    intro m h
    rw [List.foldl_cons, ih (keys_mapInc_nodup h), sumValues_mapInc a h]
    simp only [List.length_cons]
    omega

theorem keys_subset_foldl (l : List ℕ) :
    ∀ (m : List (ℕ × ℕ)), keys m ⊆ keys (l.foldl mapInc m) := by
  induction l with
  | nil => intro m; exact fun _ h => h
  | cons a t ih =>
    intro m
    exact fun x hx => ih (mapInc m a) (keys_subset_mapInc m a hx)

theorem mem_keys_foldl {l : List ℕ} {x : ℕ} (hx : x ∈ l) :
    ∀ (m : List (ℕ × ℕ)), x ∈ keys (l.foldl mapInc m) := by
  induction l with
  | nil => cases hx
  | cons a t ih =>
    intro m
    rcases List.mem_cons.mp hx with rfl | hxt
    · exact keys_subset_foldl t (mapInc m x) (mem_keys_mapInc m x)
    · exact ih hxt (mapInc m a)

/-- With distinct keys, the stored entry is what `map.get` reads back. -/
theorem getCount_eq_of_mem {a b : ℕ} :
    ∀ {m : List (ℕ × ℕ)}, (keys m).Nodup → (a, b) ∈ m → getCount m a = b := by
  intro m
  induction m with
  | nil => intro _ h; cases h
  | cons p t ih =>
    intro hnd h
    simp only [keys, List.map_cons, List.nodup_cons] at hnd
    obtain ⟨hna, hnt⟩ := hnd
    rcases List.mem_cons.mp h with heq | hmem
    · rw [← heq]
      simp [getCount, List.find?_cons_of_pos]
    · have hpa : p.1 ≠ a := by
        intro hpa
        apply hna
        rw [hpa]
        exact List.mem_map.mpr ⟨(a, b), hmem, rfl⟩
      rw [getCount, List.find?_cons_of_neg _ (by simp [hpa])]
      exact ih hnt hmem

theorem mem_keys_iff (m : List (ℕ × ℕ)) (a : ℕ) :
    a ∈ keys m ↔ ∃ b, (a, b) ∈ m := by
  simp only [keys, List.mem_map]
  constructor
  · rintro ⟨⟨x, y⟩, hm, rfl⟩
    exact ⟨y, hm⟩
  · rintro ⟨b, hb⟩
    exact ⟨(a, b), hb, rfl⟩

/-! ### The trial loop -/

/-- A successful `simStep` is exactly one loop-body execution: it
consumes one sample for `heavyComputation`, draws the main numbers and
the bonus number, updates both tables, the sum, the results array and
(possibly) the progress log. -/
theorem simStep_some_eq {cfg : SimConfig} {rng : ℕ → ℕ} {fuel i : ℕ}
    {st st' : SimState} (h : simStep cfg rng fuel i st = some st') :
    ∃ nums k1,
      generateUniqueNumbers rng fuel cfg.mainNumberRange.count
          cfg.mainNumberRange.min cfg.mainNumberRange.max
          (heavyComputationK st.k) = some (nums, k1) ∧
      st' =
        { k := k1 + 1
          mainFrequency := nums.foldl mapInc st.mainFrequency
          bonusFrequency := mapInc st.bonusFrequency
            (randInt rng k1 cfg.bonusNumberRange.min cfg.bonusNumberRange.max)
          totalSum := st.totalSum + nums.foldl (· + ·) 0
          results := st.results ++
            [{ id := i + 1, mainNumbers := nums,
               bonusNumber := randInt rng k1 cfg.bonusNumberRange.min cfg.bonusNumberRange.max,
               timestamp := 0,
               checksum := calculateChecksum nums
                 (randInt rng k1 cfg.bonusNumberRange.min cfg.bonusNumberRange.max) }]
          progressLog :=
            if (i + 1) % ceil10 cfg.iterations.toNat = 0 then
              st.progressLog ++ [((i : ℚ) + 1) / (cfg.iterations : ℚ) * 100]
            else st.progressLog } := by
  simp only [simStep] at h
  cases hg : generateUniqueNumbers rng fuel cfg.mainNumberRange.count
      cfg.mainNumberRange.min cfg.mainNumberRange.max (heavyComputationK st.k) with
  | none => rw [hg] at h; simp at h
  | some p =>
    obtain ⟨nums, k1⟩ := p
    rw [hg] at h
    simp only [Option.some.injEq] at h
    exact ⟨nums, k1, rfl, h.symm⟩

/-- Generic invariant lemma for the trial loop. -/
theorem runLoop_ind {cfg : SimConfig} {rng : ℕ → ℕ} {fuel : ℕ}
    (P : ℕ → SimState → Prop)
    (hstep : ∀ i st st', simStep cfg rng fuel i st = some st' → P i st → P (i + 1) st') :
    ∀ n i st st', runLoop cfg rng fuel n i st = some st' → P i st → P (i + n) st' := by
  intro n
  induction n with
  | zero =>
    intro i st st' h hp
    unfold runLoop at h
    injection h with h'
    rw [← h']
    simpa using hp
  | succ n ih =>
    intro i st st' h hp
    unfold runLoop at h
    cases hs : simStep cfg rng fuel i st with
    | none => rw [hs] at h; cases h
    | some st1 =>
      rw [hs] at h
      have := ih (i + 1) st1 st' h (hstep i st st1 hs hp)
      have harith : i + 1 + n = i + (n + 1) := by omega
      rwa [harith] at this

/-- The progress log grows during the loop by exactly the payloads of
the executed trials. -/
theorem runLoop_progressLog {cfg : SimConfig} {rng : ℕ → ℕ} {fuel : ℕ} :
    ∀ {n i : ℕ} {st st' : SimState}, runLoop cfg rng fuel n i st = some st' →
      st'.progressLog = st.progressLog ++ progressPayloads cfg n i := by
  intro n
  induction n with
  | zero =>
    intro i st st' h
    unfold runLoop at h
    injection h with h'
    rw [← h']
    simp [progressPayloads]
  | succ n ih =>
    intro i st st' h
    unfold runLoop at h
    cases hs : simStep cfg rng fuel i st with
    | none => rw [hs] at h; cases h
    | some st1 =>
      rw [hs] at h
      obtain ⟨nums, k1, _, rfl⟩ := simStep_some_eq hs
      rw [ih h]
      simp only [progressPayloads]
      by_cases hc : (i + 1) % ceil10 cfg.iterations.toNat = 0
      · rw [if_pos hc, if_pos hc]
        simp
      · rw [if_neg hc, if_neg hc]
        simp

theorem mem_progressPayloads {cfg : SimConfig} :
    ∀ {n i : ℕ} {q : ℚ}, q ∈ progressPayloads cfg n i ↔
      ∃ j : ℕ, i < j ∧ j ≤ i + n ∧ j % ceil10 cfg.iterations.toNat = 0 ∧
        q = (j : ℚ) / (cfg.iterations : ℚ) * 100 := by
  intro n
  induction n with
  | zero =>
    intro i q
    simp only [progressPayloads, List.not_mem_nil, false_iff]
    rintro ⟨j, h1, h2, _, _⟩
    omega
  | succ n ih =>
    intro i q
    simp only [progressPayloads, List.mem_append]
    constructor
    · rintro (hq | hq)
      · by_cases hc : (i + 1) % ceil10 cfg.iterations.toNat = 0
        · rw [if_pos hc] at hq
          simp only [List.mem_singleton] at hq
          refine ⟨i + 1, by omega, by omega, hc, ?_⟩
          rw [hq]
          push_cast
          ring
        · rw [if_neg hc] at hq
          simp at hq
      · obtain ⟨j, h1, h2, h3, h4⟩ := ih.mp hq
        exact ⟨j, by omega, by omega, h3, h4⟩
    · rintro ⟨j, h1, h2, h3, h4⟩
      by_cases hji : j = i + 1
      · subst hji
        left
        rw [if_pos h3]
        simp only [List.mem_singleton]
        rw [h4]
        push_cast
        ring
      · right
        exact ih.mpr ⟨j, by omega, by omega, h3, h4⟩

theorem progressPayloads_sorted {cfg : SimConfig} (hit : 1 ≤ cfg.iterations) :
    ∀ n i, List.Sorted (· < ·) (progressPayloads cfg n i) := by
  have hitq : (0 : ℚ) < (cfg.iterations : ℚ) := by
    have : (1 : ℚ) ≤ (cfg.iterations : ℚ) := by exact_mod_cast hit
    linarith
  intro n
  induction n with
  | zero => intro i; simp [progressPayloads]
  | succ n ih =>
    intro i
    simp only [progressPayloads]
    by_cases hc : (i + 1) % ceil10 cfg.iterations.toNat = 0
    · rw [if_pos hc]
      simp only [List.singleton_append, List.sorted_cons]
      refine ⟨?_, ih (i + 1)⟩
      intro b hb
      obtain ⟨j, hj1, _, _, rfl⟩ := mem_progressPayloads.mp hb
      have hij : ((i : ℚ) + 1) < (j : ℚ) := by exact_mod_cast hj1
      rw [div_mul_eq_mul_div, div_mul_eq_mul_div, div_lt_div_iff₀ hitq hitq]
      nlinarith
    · rw [if_neg hc]
      simp only [List.nil_append]
      exact ih (i + 1)

theorem progressPayloads_bounds {cfg : SimConfig} (hit : 1 ≤ cfg.iterations)
    {n i : ℕ} {q : ℚ} (hq : q ∈ progressPayloads cfg n i)
    (hn : i + n ≤ cfg.iterations.toNat) : 0 ≤ q ∧ q ≤ 100 := by
  have hitq : (0 : ℚ) < (cfg.iterations : ℚ) := by
    have : (1 : ℚ) ≤ (cfg.iterations : ℚ) := by exact_mod_cast hit
    linarith
  obtain ⟨j, _, hj2, _, rfl⟩ := mem_progressPayloads.mp hq
  have hjN : (j : ℚ) ≤ (cfg.iterations : ℚ) := by
    have hjn : j ≤ cfg.iterations.toNat := le_trans hj2 hn
    have : ((j : ℤ) : ℚ) ≤ ((cfg.iterations.toNat : ℤ) : ℚ) := by
      exact_mod_cast hjn
    rw [Int.toNat_of_nonneg (by omega)] at this
    exact_mod_cast this
  constructor
  · positivity
  · rw [div_mul_eq_mul_div, div_le_iff₀ hitq]
    nlinarith

/-! ### Facts about the statistics stage -/

theorem jsRound_mono {x y : ℚ} (h : x ≤ y) : jsRound x ≤ jsRound y :=
  Int.floor_le_floor (by linarith)

theorem headD_le_of_sorted {l : List ℕ} (h : l.Sorted (· ≤ ·)) :
    ∀ x ∈ l, l.headD 0 ≤ x := by
  cases l with
  | nil => intro x hx; cases hx
  | cons a t =>
    intro x hx
    rcases List.mem_cons.mp hx with rfl | hxt
    · rw [List.headD_cons]
    · rw [List.headD_cons]
      exact List.rel_of_sorted_cons h x hxt

/-- The `mostFrequentMain` field is `sortedMain` *after* the in-place
ascending re-sort of source line 102. -/
theorem mkStatistics_mostFrequentMain (cfg : SimConfig) (st : SimState) :
    (mkStatistics cfg st).mostFrequentMain =
      List.insertionSort (· ≤ ·)
        (((sortByCountDesc st.mainFrequency).take 6).map Prod.fst) := rfl

/-- The progress log of a finished run is exactly the payload list of
trials `0, …, iterations-1`. -/
theorem runState_progressLog {cfg : SimConfig} {rng : ℕ → ℕ} {fuel : ℕ}
    {st : SimState} (h : runState cfg rng fuel = some st) :
    st.progressLog = progressPayloads cfg cfg.iterations.toNat 0 := by
  unfold runState at h
  have h2 := runLoop_progressLog h
  simpa [initState] using h2

/-- Both frequency tables keep pairwise-distinct keys. -/
theorem runState_nodup_keys {cfg : SimConfig} {rng : ℕ → ℕ} {fuel : ℕ}
    {st : SimState} (h : runState cfg rng fuel = some st) :
    (keys st.mainFrequency).Nodup ∧ (keys st.bonusFrequency).Nodup := by
  unfold runState at h
  refine runLoop_ind
    (fun _ s => (keys s.mainFrequency).Nodup ∧ (keys s.bonusFrequency).Nodup)
    ?_ cfg.iterations.toNat 0 initState st h (by simp [initState, keys])
  intro i s s' hs hp
  obtain ⟨nums, k1, _, rfl⟩ := simStep_some_eq hs
  exact ⟨keys_foldl_nodup hp.1, keys_mapInc_nodup hp.2⟩

/-- After at least one trial, the main table has at least `count`
entries: the first draw contributes `count` distinct keys and keys are
never removed. -/
theorem mainFrequency_length_ge {cfg : SimConfig} {rng : ℕ → ℕ} {fuel : ℕ}
    {st : SimState} (h : runState cfg rng fuel = some st)
    (hit : 1 ≤ cfg.iterations) :
    cfg.mainNumberRange.count ≤ st.mainFrequency.length := by
  unfold runState at h
  obtain ⟨m, hm⟩ : ∃ m, cfg.iterations.toNat = m + 1 :=
    ⟨cfg.iterations.toNat - 1, by omega⟩
  rw [hm] at h
  unfold runLoop at h
  cases hs : simStep cfg rng fuel 0 initState with
  | none => rw [hs] at h; cases h
  | some st1 =>
    rw [hs] at h
    obtain ⟨nums, k1, hgen, hst1⟩ := simStep_some_eq hs
    obtain ⟨hsort, hlen, _⟩ := generateUniqueNumbers_some hgen
    have hnd : nums.Nodup := hsort.nodup
    have hkeys : ∀ x ∈ nums, x ∈ keys st.mainFrequency := by
      refine runLoop_ind (fun _ s => ∀ x ∈ nums, x ∈ keys s.mainFrequency)
        ?_ m 1 st1 st h ?_
      · intro i s s' hs' hp
        obtain ⟨nums', k1', _, rfl⟩ := simStep_some_eq hs'
        intro x hx
        exact keys_subset_foldl nums' _ (hp x hx)
      · subst hst1
        intro x hx
        exact mem_keys_foldl hx _
    calc cfg.mainNumberRange.count = nums.length := hlen.symm
      _ = nums.toFinset.card := (List.toFinset_card_of_nodup hnd).symm
      _ ≤ (keys st.mainFrequency).toFinset.card := by
          apply Finset.card_le_card
          intro x hx
          exact List.mem_toFinset.mpr (hkeys x (List.mem_toFinset.mp hx))
      _ ≤ (keys st.mainFrequency).length := List.toFinset_card_le _
      _ = st.mainFrequency.length := by rw [keys, List.length_map]

/-- Members of the top-6 selection dominate, in recorded frequency,
every table key outside the selection. -/
theorem take6_dominates {m : List (ℕ × ℕ)} (hnd : (keys m).Nodup)
    {x y : ℕ}
    (hx : x ∈ ((sortByCountDesc m).take 6).map Prod.fst)
    (hy : y ∈ keys m)
    (hyn : y ∉ ((sortByCountDesc m).take 6).map Prod.fst) :
    getCount m y ≤ getCount m x := by
  obtain ⟨ex, hex, hx1⟩ := List.mem_map.mp hx
  obtain ⟨b, hyb⟩ := (mem_keys_iff m y).mp hy
  have hperm : List.Perm (sortByCountDesc m) m := List.perm_insertionSort _ m
  have hey : (y, b) ∈ sortByCountDesc m := hperm.mem_iff.mpr hyb
  have hsplit : (y, b) ∈ (sortByCountDesc m).take 6 ++ (sortByCountDesc m).drop 6 := by
    rw [List.take_append_drop]
    exact hey
  rcases List.mem_append.mp hsplit with hin | hdrop
  · exact absurd (List.mem_map.mpr ⟨(y, b), hin, rfl⟩) hyn
  · have hsorted : (sortByCountDesc m).Sorted byCountDesc :=
      List.sorted_insertionSort byCountDesc m
    have hrel : byCountDesc ex (y, b) :=
      hsorted.rel_of_mem_take_of_mem_drop hex hdrop
    have hgx : getCount m ex.1 = ex.2 :=
      getCount_eq_of_mem hnd (by simpa using hperm.subset (List.mem_of_mem_take hex))
    have hgy : getCount m y = b := getCount_eq_of_mem hnd hyb
    rw [← hx1, hgx, hgy]
    exact hrel

theorem scoreOpt_of_ne_zero {it : ℤ} (h : it ≠ 0) (x : ℚ) :
    scoreOpt it x = some (jsRound x) := by
  unfold scoreOpt
  rw [if_neg h]

/-! ### Claims -/

/-- C1: the claim says a start whose main RangeSpec requests more unique
values than the range can supply fails fast with a ConfigurationError
before any trial.  The code has no such check: the sampling loop of
`generateUniqueNumbers` never finishes within any finite number of
samples, so the worker hangs and never posts any message at all —
neither an error nor a completion.  This theorem records the divergence:
for every such start (range nonempty, `count > max - min + 1`, at least
one iteration) and every random stream, the run produces no message list
within any fuel budget. -/
theorem impossible_mainRange_runs_forever (cfg : SimConfig) (rng : ℕ → ℕ)
    (hlo : cfg.mainNumberRange.min ≤ cfg.mainNumberRange.max)
    (hc : cfg.mainNumberRange.max - cfg.mainNumberRange.min + 1 <
      cfg.mainNumberRange.count)
    (hit : 1 ≤ cfg.iterations) :
    ∀ fuel, runSimulation cfg rng fuel = none := by
  intro fuel
  have hgen : ∀ k, generateUniqueNumbers rng fuel cfg.mainNumberRange.count
      cfg.mainNumberRange.min cfg.mainNumberRange.max k = none := by
    intro k
    unfold generateUniqueNumbers
    rw [sampleLoop_eq_none hlo hc fuel [] k List.nodup_nil (by simp)]
    rfl
  have hstep : ∀ i st, simStep cfg rng fuel i st = none := by
    intro i st
    simp only [simStep, hgen]
  obtain ⟨m, hm⟩ : ∃ m, cfg.iterations.toNat = m + 1 :=
    ⟨cfg.iterations.toNat - 1, by omega⟩
  unfold runSimulation runState
  rw [hm]
  unfold runLoop
  rw [hstep]
  rfl

/-- Witness for C1 at the spec's scenario `{min: 1, max: 5, count: 6}`. -/
theorem impossible_mainRange_runs_forever_witness :
    (cfgImpossible.mainNumberRange.min ≤ cfgImpossible.mainNumberRange.max ∧
      cfgImpossible.mainNumberRange.max - cfgImpossible.mainNumberRange.min + 1 <
        cfgImpossible.mainNumberRange.count ∧
      1 ≤ cfgImpossible.iterations) ∧
    runSimulation cfgImpossible rngId 9 = none :=
  ⟨⟨by decide, by decide, by decide⟩,
    impossible_mainRange_runs_forever cfgImpossible rngId
      (by decide) (by decide) (by decide) 9⟩

/-- C2: the claim says a start with `iterations ≤ 0` aborts with a
ConfigurationError and that no complete message carrying statistics is
ever emitted.  The code has no validation: the trial loop simply does
not run and the worker still posts a COMPLETE message carrying a
statistics object (with an empty `mostFrequentMain` and `NaN`-valued
`averageSum`).  This theorem records the divergence. -/
theorem nonpos_iterations_still_completes (cfg : SimConfig) (rng : ℕ → ℕ)
    (fuel : ℕ) (h : cfg.iterations ≤ 0) :
    runSimulation cfg rng fuel =
      some [WorkerMessage.complete [] (mkStatistics cfg initState)] := by
  have h0 : cfg.iterations.toNat = 0 := by omega
  unfold runSimulation runState
  rw [h0]
  rfl

/-- Witness for C2 at the spec's `iterations = 0` scenario. -/
theorem nonpos_iterations_still_completes_witness :
    cfgZeroIter.iterations ≤ 0 ∧
    runSimulation cfgZeroIter rngId 0 =
      some [WorkerMessage.complete [] (mkStatistics cfgZeroIter initState)] :=
  ⟨by decide, nonpos_iterations_still_completes cfgZeroIter rngId 0 (by decide)⟩

/-- C9: every trial is folded into the accumulators exactly once, so for
a completed run the main-frequency counts total `6 * N` (with the
6-of-range configuration) and the bonus-frequency counts total `N`. -/
theorem frequency_totals (cfg : SimConfig) (rng : ℕ → ℕ) (fuel : ℕ)
    (st : SimState) (h : runState cfg rng fuel = some st)
    (h6 : cfg.mainNumberRange.count = 6) :
    sumValues st.mainFrequency = 6 * cfg.iterations.toNat ∧
      sumValues st.bonusFrequency = cfg.iterations.toNat := by
  unfold runState at h
  have step : ∀ i s s', simStep cfg rng fuel i s = some s' →
      (sumValues s.mainFrequency = cfg.mainNumberRange.count * i ∧
        sumValues s.bonusFrequency = i ∧
        (keys s.mainFrequency).Nodup ∧ (keys s.bonusFrequency).Nodup) →
      (sumValues s'.mainFrequency = cfg.mainNumberRange.count * (i + 1) ∧
        sumValues s'.bonusFrequency = i + 1 ∧
        (keys s'.mainFrequency).Nodup ∧ (keys s'.bonusFrequency).Nodup) := by
    intro i s s' hs hp
    obtain ⟨hm, hb, hnm, hnb⟩ := hp
    obtain ⟨nums, k1, hgen, rfl⟩ := simStep_some_eq hs
    have hlen : nums.length = cfg.mainNumberRange.count :=
      (generateUniqueNumbers_some hgen).2.1
    refine ⟨?_, ?_, keys_foldl_nodup hnm, keys_mapInc_nodup hnb⟩
    · show sumValues (nums.foldl mapInc s.mainFrequency) =
        cfg.mainNumberRange.count * (i + 1)
      rw [sumValues_foldl hnm, hm, hlen]
      ring
    · show sumValues (mapInc s.bonusFrequency _) = i + 1
      rw [sumValues_mapInc _ hnb, hb]
  have base : sumValues initState.mainFrequency = cfg.mainNumberRange.count * 0 ∧
      sumValues initState.bonusFrequency = 0 ∧
      (keys initState.mainFrequency).Nodup ∧
      (keys initState.bonusFrequency).Nodup := by
    simp [initState, sumValues, keys]
  have final := runLoop_ind _ step cfg.iterations.toNat 0 initState st h base
  simp only [Nat.zero_add] at final
  rw [h6] at final
  exact ⟨final.1, final.2.1⟩

/-- Witness for C9 at a one-trial run. -/
theorem frequency_totals_witness :
    (runState cfgOneTrial rngId 10 = some stateOneTrial ∧
      cfgOneTrial.mainNumberRange.count = 6) ∧
    (sumValues stateOneTrial.mainFrequency = 6 * cfgOneTrial.iterations.toNat ∧
      sumValues stateOneTrial.bonusFrequency = cfgOneTrial.iterations.toNat) :=
  ⟨⟨by rfl, by decide⟩,
    frequency_totals cfgOneTrial rngId 10 stateOneTrial (by rfl) (by decide)⟩

/-- C8: for valid range specs, every draw pushed into `results` has
strictly ascending (hence pairwise distinct) main numbers of length
`count`, all within the main range; a bonus number within the bonus
range; and `checksum = sum(mainNumbers) * bonusNumber`. -/
theorem draws_wellformed (cfg : SimConfig) (rng : ℕ → ℕ) (fuel : ℕ)
    (st : SimState) (h : runState cfg rng fuel = some st)
    (hm : cfg.mainNumberRange.min ≤ cfg.mainNumberRange.max)
    (hb : cfg.bonusNumberRange.min ≤ cfg.bonusNumberRange.max) :
    ∀ d ∈ st.results,
      d.mainNumbers.Sorted (· < ·) ∧
      d.mainNumbers.length = cfg.mainNumberRange.count ∧
      (∀ x ∈ d.mainNumbers,
        cfg.mainNumberRange.min ≤ x ∧ x ≤ cfg.mainNumberRange.max) ∧
      (cfg.bonusNumberRange.min ≤ d.bonusNumber ∧
        d.bonusNumber ≤ cfg.bonusNumberRange.max) ∧
      d.checksum = d.mainNumbers.sum * d.bonusNumber := by
  unfold runState at h
  have step : ∀ i s s', simStep cfg rng fuel i s = some s' →
      (∀ d ∈ s.results,
        d.mainNumbers.Sorted (· < ·) ∧
        d.mainNumbers.length = cfg.mainNumberRange.count ∧
        (∀ x ∈ d.mainNumbers,
          cfg.mainNumberRange.min ≤ x ∧ x ≤ cfg.mainNumberRange.max) ∧
        (cfg.bonusNumberRange.min ≤ d.bonusNumber ∧
          d.bonusNumber ≤ cfg.bonusNumberRange.max) ∧
        d.checksum = d.mainNumbers.sum * d.bonusNumber) →
      (∀ d ∈ s'.results,
        d.mainNumbers.Sorted (· < ·) ∧
        d.mainNumbers.length = cfg.mainNumberRange.count ∧
        (∀ x ∈ d.mainNumbers,
          cfg.mainNumberRange.min ≤ x ∧ x ≤ cfg.mainNumberRange.max) ∧
        (cfg.bonusNumberRange.min ≤ d.bonusNumber ∧
          d.bonusNumber ≤ cfg.bonusNumberRange.max) ∧
        d.checksum = d.mainNumbers.sum * d.bonusNumber) := by
    intro i s s' hs hp
    obtain ⟨nums, k1, hgen, rfl⟩ := simStep_some_eq hs
    intro d hd
    rcases List.mem_append.mp hd with hold | hnew
    · exact hp d hold
    · rw [List.mem_singleton] at hnew
      subst hnew
      obtain ⟨hsorted, hlen, hrange⟩ := generateUniqueNumbers_some hgen
      have hbonus := @randInt_mem rng k1
        cfg.bonusNumberRange.min cfg.bonusNumberRange.max hb
      rw [Finset.mem_Icc] at hbonus
      refine ⟨hsorted, hlen, hrange hm, hbonus, ?_⟩
      show calculateChecksum nums _ = nums.sum * _
      rw [calculateChecksum, List.sum_eq_foldl]
  have base : ∀ d ∈ initState.results,
      d.mainNumbers.Sorted (· < ·) ∧
      d.mainNumbers.length = cfg.mainNumberRange.count ∧
      (∀ x ∈ d.mainNumbers,
        cfg.mainNumberRange.min ≤ x ∧ x ≤ cfg.mainNumberRange.max) ∧
      (cfg.bonusNumberRange.min ≤ d.bonusNumber ∧
        d.bonusNumber ≤ cfg.bonusNumberRange.max) ∧
      d.checksum = d.mainNumbers.sum * d.bonusNumber := by
    intro d hd
    simp [initState] at hd
  exact runLoop_ind (fun _ s => ∀ d ∈ s.results, _) step
    cfg.iterations.toNat 0 initState st h base

/-- Witness for C8 at a one-trial run. -/
theorem draws_wellformed_witness :
    (runState cfgOneTrial rngId 10 = some stateOneTrial ∧
      cfgOneTrial.mainNumberRange.min ≤ cfgOneTrial.mainNumberRange.max ∧
      cfgOneTrial.bonusNumberRange.min ≤ cfgOneTrial.bonusNumberRange.max) ∧
    (∀ d ∈ stateOneTrial.results,
      d.mainNumbers.Sorted (· < ·) ∧
      d.mainNumbers.length = cfgOneTrial.mainNumberRange.count ∧
      (∀ x ∈ d.mainNumbers,
        cfgOneTrial.mainNumberRange.min ≤ x ∧
          x ≤ cfgOneTrial.mainNumberRange.max) ∧
      (cfgOneTrial.bonusNumberRange.min ≤ d.bonusNumber ∧
        d.bonusNumber ≤ cfgOneTrial.bonusNumberRange.max) ∧
      d.checksum = d.mainNumbers.sum * d.bonusNumber) :=
  ⟨⟨by rfl, by decide, by decide⟩,
    draws_wellformed cfgOneTrial rngId 10 stateOneTrial
      (by rfl) (by decide) (by decide)⟩

/-- C5: on the fallback (non-worker) path, for every iteration count,
every random stream and every fuel budget, the emitted statistics carry
the hardcoded placeholders `mostFrequentMain = [3, 7, 12, 18, 24, 29]`
and `mostFrequentBonus = 6` (and no optimizedCombinations), regardless
of the draws the run actually generated. -/
theorem fallback_stats_hardcoded (iterations : ℕ) (rng : ℕ → ℕ) (fuel : ℕ)
    (stats : SimulationStatistics) (window : List Draw)
    (h : runFallbackSimulation iterations rng fuel = some (stats, window)) :
    stats.mostFrequentMain = [3, 7, 12, 18, 24, 29] ∧
    stats.mostFrequentBonus = some 6 ∧
    stats.optimizedCombinations = none := by
  unfold runFallbackSimulation at h
  cases ht : fallbackTrials rng fuel iterations 0 [] 0 with
  | none => rw [ht] at h; cases h
  | some p =>
    obtain ⟨results, k⟩ := p
    rw [ht] at h
    simp only [Option.some.injEq, Prod.mk.injEq] at h
    obtain ⟨h1, _⟩ := h
    rw [← h1]
    exact ⟨rfl, rfl, rfl⟩

/-- Witness for C5 at a one-trial fallback run. -/
theorem fallback_stats_hardcoded_witness :
    runFallbackSimulation 1 rngId 10 =
      some (fallbackStatsOneTrial, [fallbackDrawOneTrial]) ∧
    (fallbackStatsOneTrial.mostFrequentMain = [3, 7, 12, 18, 24, 29] ∧
      fallbackStatsOneTrial.mostFrequentBonus = some 6 ∧
      fallbackStatsOneTrial.optimizedCombinations = none) :=
  ⟨by rfl,
    fallback_stats_hardcoded 1 rngId 10 fallbackStatsOneTrial
      [fallbackDrawOneTrial] (by rfl)⟩

/-- C7: a finished worker run posts zero or more progress messages with
strictly increasing payloads, followed by exactly one terminal message —
here always a COMPLETE carrying the trailing window and the statistics —
and nothing after it; no error message ever accompanies statistics.  (In
the typed model nothing in the `try` body throws, so the `catch` branch
posting a single terminal ERROR is unreachable.) -/
theorem message_order_protocol (cfg : SimConfig) (rng : ℕ → ℕ) (fuel : ℕ)
    (st : SimState) (h : runState cfg rng fuel = some st) :
    runSimulation cfg rng fuel =
      some (st.progressLog.map WorkerMessage.progress ++
        [WorkerMessage.complete (lastN 50 st.results) (mkStatistics cfg st)]) ∧
    List.Sorted (· < ·) st.progressLog := by
  constructor
  · unfold runSimulation
    rw [h]
    rfl
  · rw [runState_progressLog h]
    rcases Nat.eq_zero_or_pos cfg.iterations.toNat with hN | hN
    · rw [hN]
      simp [progressPayloads]
    · exact progressPayloads_sorted (by omega) _ _

/-- Witness for C7 at a one-trial run. -/
theorem message_order_protocol_witness :
    runState cfgOneTrial rngId 10 = some stateOneTrial ∧
    (runSimulation cfgOneTrial rngId 10 =
      some (stateOneTrial.progressLog.map WorkerMessage.progress ++
        [WorkerMessage.complete (lastN 50 stateOneTrial.results)
          (mkStatistics cfgOneTrial stateOneTrial)]) ∧
      List.Sorted (· < ·) stateOneTrial.progressLog) :=
  ⟨by rfl, message_order_protocol cfgOneTrial rngId 10 stateOneTrial (by rfl)⟩

/-- C6 counterexample: the claim says each progress event carries
`completedFraction = completedCount / totalCount`, a float in `[0, 1]`.
In the one-trial run the single progress event is posted with payload
`100` (the code multiplies the fraction by 100), while the completed
fraction after that trial is `1/1 = 1`; `100` is neither that fraction
nor within `[0, 1]`. -/
theorem progress_payload_percent_cx :
    runState cfgOneTrial rngId 10 = some stateOneTrial ∧
    stateOneTrial.progressLog = [(100 : ℚ)] ∧
    (1 : ℚ) / (1 : ℚ) = 1 ∧
    (100 : ℚ) ≠ (1 : ℚ) ∧
    ¬((100 : ℚ) ≤ 1) :=
  ⟨by rfl, by norm_num [stateOneTrial, cfgOneTrial], by norm_num,
    by norm_num, by norm_num⟩

/-- C6 amended: a progress message is posted exactly when the completed
trial count `j` is a positive multiple of `⌈totalCount / 10⌉`, and it
carries `(j / totalCount) * 100` — a percentage in `[0, 100]`, not a
fraction in `[0, 1]`. -/
theorem progress_cadence_and_payload (cfg : SimConfig) (rng : ℕ → ℕ)
    (fuel : ℕ) (st : SimState) (h : runState cfg rng fuel = some st)
    (hit : 1 ≤ cfg.iterations) :
    (∀ q : ℚ, q ∈ st.progressLog ↔ ∃ j : ℕ, 1 ≤ j ∧
      j ≤ cfg.iterations.toNat ∧ j % ceil10 cfg.iterations.toNat = 0 ∧
      q = (j : ℚ) / (cfg.iterations : ℚ) * 100) ∧
    (∀ q ∈ st.progressLog, 0 ≤ q ∧ q ≤ 100) := by
  have hlog := runState_progressLog h
  constructor
  · intro q
    rw [hlog, mem_progressPayloads]
    constructor
    · rintro ⟨j, h1, h2, h3, h4⟩
      exact ⟨j, by omega, by omega, h3, h4⟩
    · rintro ⟨j, h1, h2, h3, h4⟩
      exact ⟨j, by omega, by omega, h3, h4⟩
  · intro q hq
    rw [hlog] at hq
    exact progressPayloads_bounds hit hq (by omega)

/-- Witness for the amended C6 at a one-trial run. -/
theorem progress_cadence_and_payload_witness :
    (runState cfgOneTrial rngId 10 = some stateOneTrial ∧
      1 ≤ cfgOneTrial.iterations) ∧
    ((∀ q : ℚ, q ∈ stateOneTrial.progressLog ↔ ∃ j : ℕ, 1 ≤ j ∧
      j ≤ cfgOneTrial.iterations.toNat ∧
      j % ceil10 cfgOneTrial.iterations.toNat = 0 ∧
      q = (j : ℚ) / (cfgOneTrial.iterations : ℚ) * 100) ∧
    (∀ q ∈ stateOneTrial.progressLog, 0 ≤ q ∧ q ≤ 100)) :=
  ⟨⟨by rfl, by decide⟩,
    progress_cadence_and_payload cfgOneTrial rngId 10 stateOneTrial
      (by rfl) (by decide)⟩

/-- C3 counterexample: the claim says the rank-1 `frequencyScore` is
`round(f_top / totalIterations * 100)` with `f_top` the frequency of the
most-frequent main number.  In the three-trial demo run, `9` is the most
frequent main number (frequency 3), so the claim predicts
`round(3/3·100) = 100`; but the in-place ascending re-sort of source
line 102 makes `sortedMain[0]` the *smallest* top number (`1`, frequency
1), and the emitted score is `round(1/3·100) = 33`. -/
theorem score_not_from_top_frequency_cx :
    runState cfgScoreDemo rngScoreDemo 10 = some stateScoreDemo ∧
    getCount stateScoreDemo.mainFrequency 9 = 3 ∧
    ((mkStatistics cfgScoreDemo stateScoreDemo).optimizedCombinations.bind
      List.head?).bind RankedCombination.frequencyScore =
        some (jsRound
          (((1 : ℕ) : ℚ) / (cfgScoreDemo.iterations : ℚ) * 100)) ∧
    jsRound (((1 : ℕ) : ℚ) / (cfgScoreDemo.iterations : ℚ) * 100) = 33 ∧
    jsRound (((3 : ℕ) : ℚ) / (cfgScoreDemo.iterations : ℚ) * 100) = 100 ∧
    (33 : ℤ) ≠ 100 :=
  ⟨by rfl, by rfl, by rfl,
    by norm_num [jsRound, cfgScoreDemo],
    by norm_num [jsRound, cfgScoreDemo],
    by decide⟩

/-- C3 amended: all three scores are computed from `f₀`, the recorded
frequency of the *smallest* member of the top-6 list (because the
in-place ascending sort aliases `sortedMain`), with the rank-2 and
rank-3 weights applied to the *unrounded* base:
rank 1 = `round(f₀/N·100)`, rank 2 = `round(f₀/N·100 · 0.85)`,
rank 3 = `round(f₀/N·100 · 0.70)`. -/
theorem scores_from_smallest_topSix (cfg : SimConfig) (rng : ℕ → ℕ)
    (fuel : ℕ) (st : SimState) (_h : runState cfg rng fuel = some st)
    (hit : 1 ≤ cfg.iterations) :
    ∃ c1 c2 c3,
      (mkStatistics cfg st).optimizedCombinations = some [c1, c2, c3] ∧
      (∀ x ∈ (mkStatistics cfg st).mostFrequentMain,
        (mkStatistics cfg st).mostFrequentMain.headD 0 ≤ x) ∧
      c1.frequencyScore = some (jsRound
        ((getCount st.mainFrequency
            ((mkStatistics cfg st).mostFrequentMain.headD 0) : ℚ)
          / (cfg.iterations : ℚ) * 100)) ∧
      c2.frequencyScore = some (jsRound
        ((getCount st.mainFrequency
            ((mkStatistics cfg st).mostFrequentMain.headD 0) : ℚ)
          / (cfg.iterations : ℚ) * 100 * (85 / 100))) ∧
      c3.frequencyScore = some (jsRound
        ((getCount st.mainFrequency
            ((mkStatistics cfg st).mostFrequentMain.headD 0) : ℚ)
          / (cfg.iterations : ℚ) * 100 * (70 / 100))) := by
  have hitne : cfg.iterations ≠ 0 := by omega
  refine ⟨_, _, _, rfl, ?_, ?_, ?_, ?_⟩
  · rw [mkStatistics_mostFrequentMain]
    exact headD_le_of_sorted (List.sorted_insertionSort _ _)
  · exact scoreOpt_of_ne_zero hitne _
  · exact scoreOpt_of_ne_zero hitne _
  · exact scoreOpt_of_ne_zero hitne _

/-- Witness for the amended C3 at a one-trial run. -/
theorem scores_from_smallest_topSix_witness :
    (runState cfgOneTrial rngId 10 = some stateOneTrial ∧
      1 ≤ cfgOneTrial.iterations) ∧
    (∃ c1 c2 c3,
      (mkStatistics cfgOneTrial stateOneTrial).optimizedCombinations =
        some [c1, c2, c3] ∧
      (∀ x ∈ (mkStatistics cfgOneTrial stateOneTrial).mostFrequentMain,
        (mkStatistics cfgOneTrial stateOneTrial).mostFrequentMain.headD 0 ≤ x) ∧
      c1.frequencyScore = some (jsRound
        ((getCount stateOneTrial.mainFrequency
            ((mkStatistics cfgOneTrial stateOneTrial).mostFrequentMain.headD 0) : ℚ)
          / (cfgOneTrial.iterations : ℚ) * 100)) ∧
      c2.frequencyScore = some (jsRound
        ((getCount stateOneTrial.mainFrequency
            ((mkStatistics cfgOneTrial stateOneTrial).mostFrequentMain.headD 0) : ℚ)
          / (cfgOneTrial.iterations : ℚ) * 100 * (85 / 100))) ∧
      c3.frequencyScore = some (jsRound
        ((getCount stateOneTrial.mainFrequency
            ((mkStatistics cfgOneTrial stateOneTrial).mostFrequentMain.headD 0) : ℚ)
          / (cfgOneTrial.iterations : ℚ) * 100 * (70 / 100)))) :=
  ⟨⟨by rfl, by decide⟩,
    scores_from_smallest_topSix cfgOneTrial rngId 10 stateOneTrial
      (by rfl) (by decide)⟩

/-- C4 counterexample: the claim says every fallback bonus number lies
within the bonus range.  In the one-trial run whose only bonus draw is
`12` (the range maximum of the default `[1, 12]` spec), the rank-3
fallback is `sortedBonus[0] === 11 ? 1 : sortedBonus[0] + 2 = 14`,
outside the range. -/
theorem bonus_fallback_escapes_range_cx :
    runState cfgOneTrial rngTopBonus 10 = some stateTopBonus ∧
    ((mkStatistics cfgOneTrial stateTopBonus).optimizedCombinations.map
      fun l => l.map RankedCombination.bonusNumber) =
        some [some 12, some 1, some 14] ∧
    cfgOneTrial.bonusNumberRange.max = 12 ∧
    ¬(14 ≤ 12) :=
  ⟨by rfl, by rfl, by rfl, by decide⟩

/-- C4 amended: when fewer than 2 (resp. 3) distinct bonus values were
recorded, the rank-2 (resp. rank-3) bonus slot is filled with the
hardcoded fallback `if top = 12 then 1 else top + 1` (resp.
`if top = 11 then 1 else top + 2`), where `top` is the most frequent
bonus value.  The wrap thresholds 12 and 11 are hardcoded against the
default `[1, 12]` spec — the fallback is not clamped to the configured
bonus range, and for `top = 12` the rank-3 value `14` leaves even the
default range. -/
theorem bonus_fallback_hardcoded (cfg : SimConfig) (rng : ℕ → ℕ)
    (fuel : ℕ) (st : SimState) (_h : runState cfg rng fuel = some st)
    (t₀ : ℕ)
    (h0 : ((sortByCountDesc st.bonusFrequency).map Prod.fst)[0]? = some t₀) :
    ∃ c1 c2 c3,
      (mkStatistics cfg st).optimizedCombinations = some [c1, c2, c3] ∧
      (st.bonusFrequency.length < 2 →
        c2.bonusNumber = some (if t₀ = 12 then 1 else t₀ + 1)) ∧
      (st.bonusFrequency.length < 3 →
        c3.bonusNumber = some (if t₀ = 11 then 1 else t₀ + 2)) := by
  have hlensb : ((sortByCountDesc st.bonusFrequency).map Prod.fst).length =
      st.bonusFrequency.length := by
    rw [List.length_map, sortByCountDesc, List.length_insertionSort]
  refine ⟨_, _, _, rfl, ?_, ?_⟩
  · intro hlen
    have h1 : ((sortByCountDesc st.bonusFrequency).map Prod.fst)[1]? = none :=
      List.getElem?_eq_none (by omega)
    show jsOrN ((sortByCountDesc st.bonusFrequency).map Prod.fst)[1]?
        (match ((sortByCountDesc st.bonusFrequency).map Prod.fst)[0]? with
         | some t => some (if t = 12 then 1 else t + 1)
         | none => none) = some (if t₀ = 12 then 1 else t₀ + 1)
    rw [h1, h0]
    rfl
  · intro hlen
    have h2 : ((sortByCountDesc st.bonusFrequency).map Prod.fst)[2]? = none :=
      List.getElem?_eq_none (by omega)
    show jsOrN ((sortByCountDesc st.bonusFrequency).map Prod.fst)[2]?
        (match ((sortByCountDesc st.bonusFrequency).map Prod.fst)[0]? with
         | some t => some (if t = 11 then 1 else t + 2)
         | none => none) = some (if t₀ = 11 then 1 else t₀ + 2)
    rw [h2, h0]
    rfl

/-- Witness for the amended C4 at a one-trial run (a single recorded
bonus value `8`; the fallbacks give `9` and `10`). -/
theorem bonus_fallback_hardcoded_witness :
    (runState cfgOneTrial rngId 10 = some stateOneTrial ∧
      ((sortByCountDesc stateOneTrial.bonusFrequency).map Prod.fst)[0]? =
        some 8) ∧
    (∃ c1 c2 c3,
      (mkStatistics cfgOneTrial stateOneTrial).optimizedCombinations =
        some [c1, c2, c3] ∧
      (stateOneTrial.bonusFrequency.length < 2 →
        c2.bonusNumber = some (if 8 = 12 then 1 else 8 + 1)) ∧
      (stateOneTrial.bonusFrequency.length < 3 →
        c3.bonusNumber = some (if 8 = 11 then 1 else 8 + 2))) :=
  ⟨⟨by rfl, by rfl⟩,
    bonus_fallback_hardcoded cfgOneTrial rngId 10 stateOneTrial
      (by rfl) 8 (by rfl)⟩

/-- C10 counterexample: the claim quantifies over every run's final
statistics, including the fallback path's; but a fallback run's
statistics carry no `optimizedCombinations` at all (so the ranked list
does not have 3 entries), and `mostFrequentMain` is the hardcoded
placeholder. -/
theorem fallback_no_rankedCombinations_cx :
    runFallbackSimulation 1 rngId 10 =
      some (fallbackStatsOneTrial, [fallbackDrawOneTrial]) ∧
    fallbackStatsOneTrial.optimizedCombinations = none ∧
    fallbackStatsOneTrial.mostFrequentMain = [3, 7, 12, 18, 24, 29] :=
  ⟨by rfl, rfl, rfl⟩

/-- C10 amended (worker path): for a finished worker run with the
6-of-range configuration and at least one iteration, `mostFrequentMain`
has exactly 6 entries, strictly ascending, and every entry's recorded
frequency dominates that of every table key outside the selection; the
3 ranked combinations all share that main-number list and their scores
satisfy `s1 ≥ s2 ≥ s3`.  (The fallback path emits no ranked
combinations — see the counterexample.) -/
theorem statistics_shape (cfg : SimConfig) (rng : ℕ → ℕ) (fuel : ℕ)
    (st : SimState) (h : runState cfg rng fuel = some st)
    (h6 : cfg.mainNumberRange.count = 6) (hit : 1 ≤ cfg.iterations) :
    ∃ (c1 c2 c3 : RankedCombination) (s1 s2 s3 : ℤ),
      (mkStatistics cfg st).optimizedCombinations = some [c1, c2, c3] ∧
      (mkStatistics cfg st).mostFrequentMain.length = 6 ∧
      (mkStatistics cfg st).mostFrequentMain.Sorted (· < ·) ∧
      (∀ x ∈ (mkStatistics cfg st).mostFrequentMain,
        ∀ y ∈ keys st.mainFrequency,
          y ∉ (mkStatistics cfg st).mostFrequentMain →
            getCount st.mainFrequency y ≤ getCount st.mainFrequency x) ∧
      c1.mainNumbers = (mkStatistics cfg st).mostFrequentMain ∧
      c2.mainNumbers = (mkStatistics cfg st).mostFrequentMain ∧
      c3.mainNumbers = (mkStatistics cfg st).mostFrequentMain ∧
      c1.frequencyScore = some s1 ∧
      c2.frequencyScore = some s2 ∧
      c3.frequencyScore = some s3 ∧
      s3 ≤ s2 ∧ s2 ≤ s1 := by
  have hnd := (runState_nodup_keys h).1
  have hitne : cfg.iterations ≠ 0 := by omega
  have hitpos : (0 : ℚ) < (cfg.iterations : ℚ) := by
    have h1 : (1 : ℚ) ≤ (cfg.iterations : ℚ) := by exact_mod_cast hit
    linarith
  have hlen6 : (mkStatistics cfg st).mostFrequentMain.length = 6 := by
    rw [mkStatistics_mostFrequentMain, List.length_insertionSort,
      List.length_map, List.length_take]
    have hge := mainFrequency_length_ge h hit
    rw [h6] at hge
    have hsl : (sortByCountDesc st.mainFrequency).length =
        st.mainFrequency.length := by
      rw [sortByCountDesc, List.length_insertionSort]
    rw [hsl]
    exact Nat.min_eq_left hge
  have hsortle : ((mkStatistics cfg st).mostFrequentMain).Sorted (· ≤ ·) := by
    rw [mkStatistics_mostFrequentMain]
    exact List.sorted_insertionSort _ _
  have hndtop : ((mkStatistics cfg st).mostFrequentMain).Nodup := by
    rw [mkStatistics_mostFrequentMain]
    refine ((List.perm_insertionSort _ _).nodup_iff).mpr ?_
    rw [List.map_take]
    refine (List.take_sublist _ _).nodup ?_
    refine (((List.perm_insertionSort byCountDesc st.mainFrequency).map
      Prod.fst).nodup_iff).mpr hnd
  have hdom : ∀ x ∈ (mkStatistics cfg st).mostFrequentMain,
      ∀ y ∈ keys st.mainFrequency,
        y ∉ (mkStatistics cfg st).mostFrequentMain →
          getCount st.mainFrequency y ≤ getCount st.mainFrequency x := by
    intro x hx y hy hyn
    rw [mkStatistics_mostFrequentMain] at hx hyn
    refine take6_dominates hnd ((List.perm_insertionSort _ _).subset hx) hy ?_
    intro hyin
    exact hyn (((List.perm_insertionSort _ _).mem_iff).mpr hyin)
  have hbase0 : (0 : ℚ) ≤ (getCount st.mainFrequency
      (((mkStatistics cfg st).mostFrequentMain).headD 0) : ℚ)
        / (cfg.iterations : ℚ) * 100 :=
    mul_nonneg (div_nonneg (Nat.cast_nonneg _) hitpos.le) (by norm_num)
  refine ⟨_, _, _,
    jsRound ((getCount st.mainFrequency
      (((mkStatistics cfg st).mostFrequentMain).headD 0) : ℚ)
        / (cfg.iterations : ℚ) * 100),
    jsRound ((getCount st.mainFrequency
      (((mkStatistics cfg st).mostFrequentMain).headD 0) : ℚ)
        / (cfg.iterations : ℚ) * 100 * (85 / 100)),
    jsRound ((getCount st.mainFrequency
      (((mkStatistics cfg st).mostFrequentMain).headD 0) : ℚ)
        / (cfg.iterations : ℚ) * 100 * (70 / 100)),
    rfl, hlen6, hsortle.lt_of_le hndtop, hdom, rfl, rfl, rfl,
    scoreOpt_of_ne_zero hitne _, scoreOpt_of_ne_zero hitne _,
    scoreOpt_of_ne_zero hitne _, ?_, ?_⟩
  · exact jsRound_mono (mul_le_mul_of_nonneg_left (by norm_num) hbase0)
  · exact jsRound_mono (mul_le_of_le_one_right hbase0 (by norm_num))

/-- Witness for the amended C10 at a one-trial run. -/
theorem statistics_shape_witness :
    (runState cfgOneTrial rngId 10 = some stateOneTrial ∧
      cfgOneTrial.mainNumberRange.count = 6 ∧ 1 ≤ cfgOneTrial.iterations) ∧
    (∃ (c1 c2 c3 : RankedCombination) (s1 s2 s3 : ℤ),
      (mkStatistics cfgOneTrial stateOneTrial).optimizedCombinations =
        some [c1, c2, c3] ∧
      (mkStatistics cfgOneTrial stateOneTrial).mostFrequentMain.length = 6 ∧
      (mkStatistics cfgOneTrial stateOneTrial).mostFrequentMain.Sorted (· < ·) ∧
      (∀ x ∈ (mkStatistics cfgOneTrial stateOneTrial).mostFrequentMain,
        ∀ y ∈ keys stateOneTrial.mainFrequency,
          y ∉ (mkStatistics cfgOneTrial stateOneTrial).mostFrequentMain →
            getCount stateOneTrial.mainFrequency y ≤
              getCount stateOneTrial.mainFrequency x) ∧
      c1.mainNumbers = (mkStatistics cfgOneTrial stateOneTrial).mostFrequentMain ∧
      c2.mainNumbers = (mkStatistics cfgOneTrial stateOneTrial).mostFrequentMain ∧
      c3.mainNumbers = (mkStatistics cfgOneTrial stateOneTrial).mostFrequentMain ∧
      c1.frequencyScore = some s1 ∧
      c2.frequencyScore = some s2 ∧
      c3.frequencyScore = some s3 ∧
      s3 ≤ s2 ∧ s2 ≤ s1) :=
  ⟨⟨by rfl, by decide, by decide⟩,
    statistics_shape cfgOneTrial rngId 10 stateOneTrial
      (by rfl) (by decide) (by decide)⟩

end Zwerte
